import Mathlib

/-!
# Verification of `archstats` (EPICS Archiver Appliance statistics IOC)

Shallow embedding of `src/archstats/archstats.py` and proofs about the
claims of its specification.

Conventions of the embedding:
* Python runtime values produced by `json.loads` / `ast.literal_eval` are
  modelled by the inductive type `PyVal`.  Python `float` is modelled by
  `ℚ`; every floating-point operation appearing in the source (division
  and multiplication by `1024.0` on small magnitudes) is exact in IEEE
  double precision on the inputs considered by the claims, so the
  rational model agrees with CPython there.
* Python exceptions are modelled by `Except PyErr`; a function that the
  source allows to raise returns `Except PyErr α`.
* Python dicts (as produced by `json.loads`, string keys, insertion
  order) are modelled as association lists `List (String × PyVal)`.
* `ast.literal_eval` is modelled by an executable parser `literal_eval`
  over the fragment of Python literal syntax exercised by the archiver
  metrics values: signed decimal integers and floats (no exponent or
  underscore forms), quoted strings without escapes, `True`/`False`/
  `None`, tuples, lists, dicts, and top-level bare tuples such as
  `160,732`.  All universally quantified theorems below are stated
  relative to this definition; concrete witnesses evaluate it only on
  inputs where its behaviour coincides with CPython's.
-/

set_option autoImplicit false
set_option maxRecDepth 8192

namespace Archstats

/-- Model of the Python values flowing through the program:
results of `json.loads` and `ast.literal_eval`.  Python `float` is
modelled by `ℚ` (see the file header). -/
inductive PyVal where
  | bool (b : Bool)
  | int (n : Int)
  | float (q : ℚ)
  | str (s : String)
  | tuple (xs : List PyVal)
  | list (xs : List PyVal)
  | dict (xs : List (PyVal × PyVal))
  | none
  deriving Repr

/-- Model of the Python exception classes that the embedded code can
raise.  `fetchError` and `parseError` stand for the transport / JSON
failures that `request.make()` can raise inside `_update_group`. -/
inductive PyErr where
  | keyError
  | typeError
  | valueError
  | attributeError
  | recursionError
  | fetchError
  | parseError
  deriving DecidableEq, Repr

namespace PyVal

/-- Is the value a tuple (`isinstance(evaluated, tuple)` in the source)? -/
def isTuple : PyVal → Bool
  | .tuple _ => true
  | _ => false

/-- Is the value a Python `str`? -/
def isStr : PyVal → Bool
  | .str _ => true
  | _ => false

/-- Is the value a Python `bool`? -/
def isBool : PyVal → Bool
  | .bool _ => true
  | _ => false

/-- Is the value a Python `int` (exact type, excluding `bool`)? -/
def isInt : PyVal → Bool
  | .int _ => true
  | _ => false

/-- Is the value a Python `float`? -/
def isFloat : PyVal → Bool
  | .float _ => true
  | _ => false

/-- Python truthiness (`if value:` / `if not data:`). -/
def truthy : PyVal → Bool
  | .bool b => b
  | .int n => n ≠ 0
  | .float q => q ≠ 0
  | .str s => s ≠ ""
  | .tuple xs => ¬ xs.isEmpty
  | .list xs => ¬ xs.isEmpty
  | .dict xs => ¬ xs.isEmpty
  | .none => false

/-- A Python number viewed as a rational: `bool` counts as `0`/`1`,
`int` and `float` as their numeric value; `none` for non-numbers. -/
def toNum? : PyVal → Option ℚ
  | .bool b => some (if b then 1 else 0)
  | .int n => some n
  | .float q => some q
  | _ => Option.none

end PyVal

/-- The apostrophe character (used as a Python string quote). -/
def squote : Char := Char.ofNat 39

/-- Whitespace for the literal parser. -/
def isWsChar (c : Char) : Bool := c = ' ' || c = '\t' || c = '\n' || c = '\r'

/-- Skip leading whitespace. -/
def skipWs (cs : List Char) : List Char := cs.dropWhile isWsChar

/-- Decimal value of a digit string. -/
def digitsVal (ds : List Char) : Nat :=
  ds.foldl (fun n c => 10 * n + (c.toNat - '0'.toNat)) 0

/-- Parse an unsigned decimal number: digits with an optional fractional
part (`160732`, `2.0`, `.5`, `5.`).  A `.` makes it a Python `float`,
otherwise a Python `int`. -/
def parseUnsignedNumber (cs : List Char) : Option (PyVal × List Char) :=
  let intPart := cs.takeWhile Char.isDigit
  let rest := cs.dropWhile Char.isDigit
  match rest with
  | '.' :: rest2 =>
    let fracPart := rest2.takeWhile Char.isDigit
    let rest3 := rest2.dropWhile Char.isDigit
    if intPart.isEmpty && fracPart.isEmpty then Option.none
    else
      some (.float (mkRat
        (Int.ofNat (digitsVal intPart * 10 ^ fracPart.length + digitsVal fracPart))
        (10 ^ fracPart.length)), rest3)
  | _ =>
    if intPart.isEmpty then Option.none
    else some (.int (digitsVal intPart : Nat), rest)

/-- Negation of a parsed number (unary `-`).  `mkRat` is used instead
of `Rat` negation so that concrete runs reduce in the kernel. -/
def pyNeg : PyVal → PyVal
  | .int n => .int (-n)
  | .float q => .float (mkRat (-q.num) q.den)
  | v => v

/-- Parse the body of a quoted string after its opening quote `q`;
escapes and embedded newlines are outside the modelled fragment. -/
def parseStringLit (q : Char) (cs : List Char) : Option (String × List Char) :=
  let notEnd := fun c => c ≠ q && c ≠ '\\' && c ≠ '\n'
  let body := cs.takeWhile notEnd
  match cs.dropWhile notEnd with
  | c :: rest => if c = q then some (⟨body⟩, rest) else Option.none
  | [] => Option.none

/-- Identifier characters. -/
def identChar (c : Char) : Bool := c.isAlpha || c.isDigit || c = '_'

mutual

/-- Parse one Python literal expression (without a top-level bare
tuple); returns the value and the unconsumed input. -/
def parseVal : Nat → List Char → Option (PyVal × List Char)
  | 0, _ => Option.none
  | fuel + 1, cs =>
    match skipWs cs with
    | [] => Option.none
    | c :: rest =>
      if c = '(' then
        match skipWs rest with
        | ')' :: rest2 => some (.tuple [], rest2)
        | rest2 =>
          match parseVal fuel rest2 with
          | Option.none => Option.none
          | some (v, rest3) =>
            match skipWs rest3 with
            | ')' :: rest4 => some (v, rest4)
            | ',' :: rest4 =>
              match parseElems fuel ')' rest4 with
              | some (vs, rest5) => some (.tuple (v :: vs), rest5)
              | Option.none => Option.none
            | _ => Option.none
      else if c = '[' then
        (parseElems fuel ']' rest).map (fun (vs, r) => (.list vs, r))
      else if c = '{' then
        (parsePairs fuel rest).map (fun (ps, r) => (.dict ps, r))
      else if c = '-' || c = '+' then
        match parseUnsignedNumber (skipWs rest) with
        | some (v, rest2) => some (if c = '-' then pyNeg v else v, rest2)
        | Option.none => Option.none
      else if c.isDigit || c = '.' then
        parseUnsignedNumber (c :: rest)
      else if c = '"' || c = squote then
        (parseStringLit c rest).map (fun (s, r) => (.str s, r))
      else if c.isAlpha || c = '_' then
        let tok : String := ⟨(c :: rest).takeWhile identChar⟩
        let rest2 := (c :: rest).dropWhile identChar
        if tok = "True" then some (.bool true, rest2)
        else if tok = "False" then some (.bool false, rest2)
        else if tok = "None" then some (.none, rest2)
        else Option.none
      else Option.none

/-- Parse `elem (, elem)* ,? close` for list/tuple bodies, starting
either at an element or directly at the closing bracket. -/
def parseElems : Nat → Char → List Char → Option (List PyVal × List Char)
  | 0, _, _ => Option.none
  | fuel + 1, close, cs =>
    match skipWs cs with
    | [] => Option.none
    | c :: rest =>
      if c = close then some ([], rest)
      else
        match parseVal fuel (c :: rest) with
        | Option.none => Option.none
        | some (v, rest2) =>
          match skipWs rest2 with
          | c2 :: rest3 =>
            if c2 = close then some ([v], rest3)
            else if c2 = ',' then
              match parseElems fuel close rest3 with
              | some (vs, rest4) => some (v :: vs, rest4)
              | Option.none => Option.none
            else Option.none
          | [] => Option.none

/-- Parse `key : value (, key : value)* ,? RBRACE` for dict bodies. -/
def parsePairs : Nat → List Char → Option (List (PyVal × PyVal) × List Char)
  | 0, _ => Option.none
  | fuel + 1, cs =>
    match skipWs cs with
    | [] => Option.none
    | c :: rest =>
      if c = '}' then some ([], rest)
      else
        match parseVal fuel (c :: rest) with
        | Option.none => Option.none
        | some (k, rest2) =>
          match skipWs rest2 with
          | ':' :: rest3 =>
            match parseVal fuel rest3 with
            | Option.none => Option.none
            | some (v, rest4) =>
              match skipWs rest4 with
              | '}' :: rest5 => some ([(k, v)], rest5)
              | ',' :: rest5 =>
                match parsePairs fuel rest5 with
                | some (ps, r) => some ((k, v) :: ps, r)
                | Option.none => Option.none
              | _ => Option.none
          | _ => Option.none

end

/-- Remaining elements of a top-level bare tuple such as `160,732`,
entered after the first `,`; allows a trailing comma. -/
def parseBareElems : Nat → List Char → Option (List PyVal)
  | 0, _ => Option.none
  | fuel + 1, cs =>
    match skipWs cs with
    | [] => some []
    | c :: rest =>
      match parseVal fuel (c :: rest) with
      | Option.none => Option.none
      | some (v, rest2) =>
        match skipWs rest2 with
        | [] => some [v]
        | ',' :: rest3 => (parseBareElems fuel rest3).map (v :: ·)
        | _ => Option.none

/-- Model of `ast.literal_eval` on the fragment described in the file
header: `none` models the parse raising (`ValueError`/`SyntaxError`),
`some v` a successful evaluation to `v`.  Top-level comma-separated
values form a tuple, as in CPython (`160,732` evaluates to the tuple
`(160, 732)`). -/
def literal_eval (s : String) : Option PyVal :=
  let fuel := s.length + 1
  match parseVal fuel s.data with
  | Option.none => Option.none
  | some (v, rest) =>
    match skipWs rest with
    | [] => some v
    | ',' :: rest2 =>
      match parseBareElems fuel rest2 with
      | some vs => some (.tuple (v :: vs))
      | Option.none => Option.none
    | _ => Option.none

/-- `value.replace(',', '')` from the source. -/
def removeCommas (s : String) : String := ⟨s.data.filter (fun c => c ≠ ',')⟩

/-- `archiver_literal_eval` from the source:

    try:
        evaluated = ast.literal_eval(value)
    except Exception:
        return value
    if isinstance(evaluated, tuple):
        return archiver_literal_eval(value.replace(',', ''))
    return evaluated

The unbounded Python recursion is modelled with explicit fuel standing
for the interpreter's stack budget.  When the recursion never makes
progress (which happens exactly when the comma-stripped string still
evaluates to a tuple, e.g. on input `"()"`), the stack is eventually
exhausted — but the first call to overflow it is always the *inner*
`ast.literal_eval` (its `compile`/`_convert` machinery pushes the
stack strictly deeper than the enclosing frame does), so the
`RecursionError` is raised inside the `try`, caught by
`except Exception:`, and the deepest level returns its own `value` —
the comma-stripped string — which then propagates up as the overall
result.  The fuel-exhaustion base case therefore returns the current
string, and the function never raises outward. -/
def archiver_literal_eval_fuel : Nat → String → Except PyErr PyVal
  | 0, value => .ok (.str value)
  | fuel + 1, value =>
    match literal_eval value with
    | Option.none => .ok (.str value)
    | some evaluated =>
      if evaluated.isTuple then
        archiver_literal_eval_fuel fuel (removeCommas value)
      else .ok evaluated

/-- `archiver_literal_eval` at the CPython default stack budget (any
fuel of at least 2 gives the same results, since `removeCommas` is
idempotent). -/
def archiver_literal_eval (value : String) : Except PyErr PyVal :=
  archiver_literal_eval_fuel 1000 value

/-- `archiver_literal_eval` as applied to an arbitrary runtime value:
the source sometimes calls it on values that are no longer strings
(`_value_to_pvproperty_kwargs` re-coerces the already-coerced value of
an estimated-bytes item); `ast.literal_eval` then raises inside the
`try`, and the value is returned unchanged. -/
def archiver_literal_eval_any : PyVal → Except PyErr PyVal
  | .str s => archiver_literal_eval s
  | v => .ok v

/-- Exact division of a rational by a positive natural number, written
with `mkRat` so that concrete runs reduce in the kernel (`Rat.mul` and
`Rat.inv` are irreducible). -/
def qDivNat (q : ℚ) (k : Nat) : ℚ := mkRat q.num (q.den * k)

/-- Exact multiplication of a rational by a natural number, via
`mkRat`. -/
def qMulNat (q : ℚ) (k : Nat) : ℚ := mkRat (q.num * Int.ofNat k) q.den

/-- `qDivNat` is ordinary division. -/
theorem qDivNat_eq (q : ℚ) (k : Nat) (hk : k ≠ 0) : qDivNat q k = q / (k : ℚ) := by
  have hden : (q.den : ℚ) ≠ 0 := Nat.cast_ne_zero.mpr q.den_nz
  have hkq : (k : ℚ) ≠ 0 := Nat.cast_ne_zero.mpr hk
  rw [qDivNat, Rat.mkRat_eq_div]
  push_cast
  rw [div_mul_eq_div_div, Rat.num_div_den]

/-- `qMulNat` is ordinary multiplication. -/
theorem qMulNat_eq (q : ℚ) (k : Nat) : qMulNat q k = q * (k : ℚ) := by
  have hden : (q.den : ℚ) ≠ 0 := Nat.cast_ne_zero.mpr q.den_nz
  rw [qMulNat, Rat.mkRat_eq_div, Int.ofNat_eq_coe]
  push_cast
  rw [mul_comm, mul_div_assoc, Rat.num_div_den, mul_comm]

/-- Python `value / 1024.0`-style division of a runtime value by a
positive integer constant: numbers divide (producing a `float`, since
the divisor is a float), everything else raises `TypeError`, as in
`value /= 1024.0` applied to a string. -/
def pyDivConst (v : PyVal) (k : Nat) : Except PyErr PyVal :=
  match v.toNum? with
  | some q => .ok (.float (qDivNat q k))
  | Option.none => .error .typeError

/-- Python `value * 1024.0`-style multiplication, analogously. -/
def pyMulConst (v : PyVal) (k : Nat) : Except PyErr PyVal :=
  match v.toNum? with
  | some q => .ok (.float (qMulNat q k))
  | Option.none => .error .typeError

/-- `removeCommas` strips every comma, so it is idempotent: the
recursive call inside `archiver_literal_eval` never makes further
progress on its argument. -/
theorem removeCommas_idem (s : String) : removeCommas (removeCommas s) = removeCommas s := by
  simp [removeCommas, List.filter_filter]

/-! ## Key normalization: `key_to_pv` and its `inflection` dependencies -/

/-- Python `str.replace` on character lists: replace every
non-overlapping occurrence of `pat`, scanning left to right.  The
recursion is driven by fuel (initialized to the input length, an upper
bound on the number of steps, each of which consumes at least one
character) so that concrete runs reduce in the kernel. -/
def replaceFuel (pat rep : List Char) : Nat → List Char → List Char
  | 0, l => l
  | _ + 1, [] => []
  | fuel + 1, c :: cs =>
    if pat.isPrefixOf (c :: cs) && !pat.isEmpty then
      rep ++ replaceFuel pat rep fuel ((c :: cs).drop pat.length)
    else
      c :: replaceFuel pat rep fuel cs

/-- Python `str.replace`. -/
def strReplace (s pat rep : String) : String :=
  ⟨replaceFuel pat.data rep.data s.data.length s.data⟩

/-- Python `str.startswith`. -/
def strStartsWith (s p : String) : Bool := p.data.isPrefixOf s.data

/-- Python `str.endswith`. -/
def strEndsWith (s p : String) : Bool := p.data.isSuffixOf s.data

/-- `inflection.transliterate` (NFKD then encode to ASCII dropping
what does not fit), restricted to the inputs the claims exercise:
ASCII characters are kept, others (such as the guillemet `»`, which
has no NFKD decomposition) are dropped.  Accented letters that NFKD
would decompose are outside the modelled fragment; the archiver labels
contain none. -/
def transliterate (s : String) : String := ⟨s.data.filter (fun c => c.toNat < 128)⟩

/-- Characters the `inflection.parameterize` regex keeps
(`(?i)[^a-z0-9\-_]+` is replaced by the separator). -/
def isParamChar (c : Char) : Bool := c.isAlpha || c.isDigit || c = '-' || c = '_'

/-- Collapse runs of `-` to a single `-`
(`re.sub('-{2,}', '-', ...)`). -/
def collapseDashes : List Char → List Char
  | [] => []
  | [c] => [c]
  | c :: c2 :: rest =>
    if c = '-' && c2 = '-' then collapseDashes (c2 :: rest)
    else c :: collapseDashes (c2 :: rest)

/-- Strip one leading and one trailing separator
(`re.sub('^-|-$', '', ...)`; after collapsing, runs have length one). -/
def trimDash (l : List Char) : List Char :=
  let l1 := match l with
    | '-' :: r => r
    | _ => l
  match l1.reverse with
  | '-' :: r => r.reverse
  | _ => l1

/-- `inflection.parameterize(s)` with the default `-` separator:
transliterate, turn runs of unwanted characters into `-`, collapse
repeated separators, trim, lowercase. -/
def parameterize (s : String) : String :=
  let t := (transliterate s).data.map (fun c => if isParamChar c then c else '-')
  ⟨(trimDash (collapseDashes t)).map Char.toLower⟩

/-- Tail phase of `inflection.camelize`: the regex `(?:^|_)(.)`
uppercases the character after each underscore, consuming the
underscore (a trailing lone underscore is kept). -/
def camelizeTail : List Char → List Char
  | [] => []
  | '_' :: c :: rest => c.toUpper :: camelizeTail rest
  | c :: rest => c :: camelizeTail rest

/-- `inflection.camelize` with its default uppercase first letter. -/
def camelize (s : String) : String :=
  match s.data with
  | [] => ""
  | c :: rest => ⟨c.toUpper :: camelizeTail rest⟩

/-- `key_to_pv` from the source:

    key = key.replace("&raquo;", " to ")
    key = key.replace("/", " per ")
    key = key.replace("ETL", " ETL ")
    if key.endswith('rate'):
        key = key[:-4] + 'Rate'
    parametrized = inflection.parameterize(key)
    return inflection.camelize(parametrized.replace("-", "_"))
-/
def key_to_pv (key : String) : String :=
  let key1 := strReplace key "&raquo;" " to "
  let key2 := strReplace key1 "/" " per "
  let key3 := strReplace key2 "ETL" " ETL "
  let key4 :=
    if strEndsWith key3 "rate" then
      (⟨key3.data.take (key3.data.length - 4)⟩ : String) ++ "Rate"
    else key3
  let parametrized := parameterize key4
  camelize (strReplace parametrized "-" "_")

/-- `label.split(' ', 1)[0]`: the text before the first space. -/
def firstSpaceToken (s : String) : String := ⟨s.data.takeWhile (fun c => c ≠ ' ')⟩

/-! ## The metrics transformers -/

/-- The `record` dict of `_value_to_pvproperty_kwargs`, indexed by the
exact runtime type of the coerced value (`type(value)`): Python's dict
lookup there raises `KeyError` for any other type. -/
def record_type : PyVal → Option String
  | .bool _ => some "bi"
  | .float _ => some "ai"
  | .int _ => some "longin"
  | .str _ => some "stringin"
  | _ => Option.none

/-- The result of `_value_to_pvproperty_kwargs`: the coerced `value`
together with the flattened `kwargs` dict (`doc`, `record`, and for
strings `report_as_string`/`max_length`). -/
structure PvKwargs where
  value : PyVal
  doc : String
  record : String
  report_as_string : Bool
  max_length : Option Nat
  deriving Repr

/-- `_value_to_pvproperty_kwargs(key, value)` from the source: coerce
the value, then look its exact type up in the record dict (raising
`KeyError` when absent), adding string-hosting kwargs for `str`. -/
def _value_to_pvproperty_kwargs (key : String) (value : PyVal) : Except PyErr PvKwargs := do
  let value ← archiver_literal_eval_any value
  match record_type value with
  | Option.none => .error .keyError
  | some r =>
    .ok { value := value, doc := key, record := r,
          report_as_string := value.isStr,
          max_length := if value.isStr then some 2000 else Option.none }

/-- A produced field specification: the `dict(name=..., **kwargs)`
entries built by the transformers. -/
structure Field where
  name : String
  value : PyVal
  doc : String
  record : String
  report_as_string : Bool
  max_length : Option Nat
  deriving Repr

/-- Assemble a `Field` from a name and the kwargs dict. -/
def mkField (name : String) (kw : PvKwargs) : Field :=
  { name := name, value := kw.value, doc := kw.doc, record := kw.record,
    report_as_string := kw.report_as_string, max_length := kw.max_length }

/-- A decoded JSON object (string keys, insertion order). -/
abbrev PyDict := List (String × PyVal)

/-- Python dict indexing `d[k]` as an option. -/
def dictLookup (d : PyDict) (k : String) : Option PyVal :=
  (d.find? (fun kv => kv.1 == k)).map (·.2)

/-- `to_instance_pv(instance_dict, key)` from
`instance_metrics_to_pvproperties`:
`instance_dict['instance'] + ':' + key_to_pv(key)`.  A missing
`instance` key raises `KeyError`; a non-string one makes the string
concatenation raise `TypeError`. -/
def to_instance_pv (d : PyDict) (key : String) : Except PyErr String :=
  match dictLookup d "instance" with
  | some (.str inst) => .ok (inst ++ ":" ++ key_to_pv key)
  | some _ => .error .typeError
  | Option.none => .error .keyError

/-- The body of the comprehension in `instance_metrics_to_pvproperties`
for one `key, value` item of one object:
`dict(name=to_instance_pv(instance_dict, key), **_value_to_pvproperty_kwargs(key, value))`. -/
def instance_emit (d : PyDict) (kv : String × PyVal) : Except PyErr Field := do
  let name ← to_instance_pv d kv.1
  let kw ← _value_to_pvproperty_kwargs kv.1 kv.2
  pure (mkField name kw)

/-- `instance_metrics_to_pvproperties` from the source, consuming the
decoded JSON payload (a list of objects).  Note the comprehension
iterates over every `key, value` item of each object — there is no
filter excluding the `'instance'` key. -/
def instance_metrics_to_pvproperties (payload : List PyDict) : Except PyErr (List Field) := do
  let fieldLists ← payload.mapM (fun d => d.mapM (instance_emit d))
  pure fieldLists.flatten

/-- One decoded detailed-metrics item.  The upstream objects also
carry a `source` key, which the source code never reads; it is omitted
from the model. -/
structure DetailedItem where
  name : String
  value : PyVal
  deriving Repr

/-- Split a character list around its last `(`; `Option.none` when
there is none. -/
def splitAtLastParenL : List Char → Option (List Char × List Char)
  | [] => Option.none
  | c :: cs =>
    match splitAtLastParenL cs with
    | some (b, a) => some (c :: b, a)
    | Option.none => if c = '(' then some ([], cs) else Option.none

/-- `name.rsplit('(', 1)` when a `(` exists: the two-element unpack in
the source raises `ValueError` otherwise. -/
def rsplitParen1 (s : String) : Option (String × String) :=
  (splitAtLastParenL s.data).map (fun (b, a) => ((⟨b⟩ : String), (⟨a⟩ : String)))

/-- `units.rstrip(')')`: drop all trailing `)` characters. -/
def rstripRParen (s : String) : String :=
  ⟨(s.data.reverse.dropWhile (fun c => c = ')')).reverse⟩

/-- The body of `load_and_filter` in `detailed_metrics_to_pvproperties`
for one item: the estimated-bytes special case coerces the value,
splits the unit suffix out of the name, converts `KB`/`GB` values to
MB when the coerced value is truthy, and rewrites the name's unit
suffix to `(MB)` unconditionally. -/
def detailed_filter_item (item : DetailedItem) : Except PyErr DetailedItem :=
  if strStartsWith item.name "Estimated bytes transferred in ETL" then do
    let value ← archiver_literal_eval_any item.value
    match rsplitParen1 item.name with
    | Option.none => .error .valueError
    | some (unitless_name, unitsRaw) =>
      let units := rstripRParen unitsRaw
      let value ←
        if value.truthy then
          if units = "KB" then pyDivConst value 1024
          else if units = "MB" then .ok value
          else if units = "GB" then pyMulConst value 1024
          else .ok value
        else .ok value
      .ok { name := unitless_name ++ "(MB)", value := value }
  else .ok item

/-- `detailed_metrics_to_pvproperties(instance, metrics_string)` from
the source, consuming the decoded item list.  The `instanceName`
parameter mirrors the source's `instance` argument, which its body
never uses (it is bound via `functools.partial` at request
construction). -/
def detailed_metrics_to_pvproperties (_instanceName : String) (items : List DetailedItem) :
    Except PyErr (List Field) :=
  items.mapM (fun item => do
    let item ← detailed_filter_item item
    let kw ← _value_to_pvproperty_kwargs item.name item.value
    pure (mkField (key_to_pv item.name) kw))

/-- A `{name, value}` pair as consumed by `_update_group` (and as
produced directly by `process_metrics_to_pvproperties`). -/
structure Item where
  name : String
  value : PyVal
  deriving Repr

/-- Python subscription `v[i]` for the types reachable here (list,
tuple, string; negative indices count from the end); `Option.none`
models the raised `IndexError`/`KeyError`/`TypeError`. -/
def pySubscript (v : PyVal) (i : Int) : Option PyVal :=
  let elemAt : List PyVal → Option PyVal := fun xs =>
    if i < 0 then
      if xs.length + i < 0 then Option.none else xs.get? (xs.length + i).toNat
    else xs.get? i.toNat
  match v with
  | .list xs => elemAt xs
  | .tuple xs => elemAt xs
  | .str s =>
    if i < 0 then
      if s.data.length + i < 0 then Option.none
      else (s.data.get? (s.data.length + i).toNat).map (fun c => .str ⟨[c]⟩)
    else (s.data.get? i.toNat).map (fun c => .str ⟨[c]⟩)
  | _ => Option.none

/-- `get_value(data)` from `process_metrics_to_pvproperties`:

    if not data:
        return 0
    try:
        return data[-1][1]
    except Exception:
        return 0.0

An absent `data` key is the default `None`, which is falsy. -/
def get_value (data : PyVal) : PyVal :=
  if !data.truthy then .int 0
  else
    match pySubscript data (-1) with
    | Option.none => .float 0
    | some last =>
      match pySubscript last 1 with
      | Option.none => .float 0
      | some v => v

/-- One decoded process-metrics object as bound by
`to_process_info(label='unknown', data=None, **kwargs)`: absent keys
take the defaults and extra keys are absorbed and ignored.  `label` is
modelled as a string (the upstream labels are JSON strings). -/
structure ProcessItem where
  label : String := "unknown"
  data : PyVal := .none
  deriving Repr

/-- `to_process_info` from the source. -/
def to_process_info (item : ProcessItem) : Item :=
  { name := camelize (firstSpaceToken item.label), value := get_value item.data }

/-- `process_metrics_to_pvproperties` from the source, consuming the
decoded item list; it emits plain `{name, value}` dicts and cannot
raise. -/
def process_metrics_to_pvproperties (items : List ProcessItem) : List Item :=
  items.map to_process_info

/-! ## The sync engine: `_update_group` and the `updater` loop -/

mutual

/-- Python `==` on runtime values, as used by
`prop.value != item['value']`: numbers compare by numeric value across
`bool`/`int`/`float`; strings and `None` compare structurally; lists
and tuples compare elementwise within their own type.  Dicts are
compared pairwise in order — a fragment of Python's key-based dict
equality, adequate here because attributes only ever hold scalar
values (`record_type` rejects composites at bootstrap). -/
def pyEq : PyVal → PyVal → Bool
  | a, b =>
    match a.toNum?, b.toNum? with
    | some x, some y => x == y
    | _, _ =>
      match a, b with
      | .str s, .str t => s == t
      | .none, .none => true
      | .tuple xs, .tuple ys => pyEqList xs ys
      | .list xs, .list ys => pyEqList xs ys
      | .dict xs, .dict ys => pyEqPairs xs ys
      | _, _ => false
termination_by a _ => sizeOf a

/-- Elementwise `pyEq` on sequences. -/
def pyEqList : List PyVal → List PyVal → Bool
  | [], [] => true
  | x :: xs, y :: ys => pyEq x y && pyEqList xs ys
  | _, _ => false
termination_by xs _ => sizeOf xs

/-- Pairwise `pyEq` on dict entries. -/
def pyEqPairs : List (PyVal × PyVal) → List (PyVal × PyVal) → Bool
  | [], [] => true
  | (k1, v1) :: xs, (k2, v2) :: ys => pyEq k1 k2 && pyEq v1 v2 && pyEqPairs xs ys
  | _, _ => false
termination_by xs _ => sizeOf xs

end

/-- First-match association-list lookup (Python attribute/dict access
on unique keys). -/
def assocLookup {α : Type} (m : List (String × α)) (k : String) : Option α :=
  (m.find? (fun kv => kv.1 == k)).map (·.2)

/-- Update the binding of an existing key. -/
def assocSet {α : Type} : List (String × α) → String → α → List (String × α)
  | [], _, _ => []
  | (k', v') :: rest, k, v =>
    if k' == k then (k', v) :: rest else (k', v') :: assocSet rest k v

/-- The per-group runtime state read and written by `_update_group`:
the schema map `group.key_to_attr_map` built at bootstrap, and the
current values of the group's attributes
(`getattr(group, attr).value`). -/
structure GroupState where
  key_to_attr_map : List (String × String)
  attrValues : List (String × PyVal)
  deriving Repr

/-- One iteration of the inner loop of `_update_group` for a fetched
item:

    try:
        attr = group.key_to_attr_map[item['name']]
    except KeyError:
        self.log.warning('Saw new entry: %s', item); continue
    prop = getattr(group, attr)
    try:
        if prop.value != item['value']:
            await prop.write(value=item['value']); changed = True
    except Exception:
        self.log.exception(...)

The `writeOk` oracle models whether the external `prop.write` call
succeeds; a failed write is caught and logged, leaving the value and
the `changed` flag as they were.  `getattr` sits outside the `try`, so
a missing attribute (impossible for a schema-built group) would
propagate as `attributeError`. -/
def process_item (writeOk : String → Bool) (g : GroupState) (changed : Bool) (item : Item) :
    Except PyErr (GroupState × Bool) :=
  match assocLookup g.key_to_attr_map item.name with
  | Option.none => .ok (g, changed)
  | some attr =>
    match assocLookup g.attrValues attr with
    | Option.none => .error .attributeError
    | some cur =>
      if !pyEq cur item.value then
        if writeOk attr then
          .ok ({ g with attrValues := assocSet g.attrValues attr item.value }, true)
        else .ok (g, changed)
      else .ok (g, changed)

/-- The inner loop of `_update_group` over the items of one request. -/
def run_items (writeOk : String → Bool) :
    GroupState → Bool → List Item → Except PyErr (GroupState × Bool)
  | g, changed, [] => .ok (g, changed)
  | g, changed, item :: rest => do
    let (g', c') ← process_item writeOk g changed item
    run_items writeOk g' c' rest

/-- Outcome of `await request.make()` for one request of a group: a
raised fetch/parse failure, or the transformed item list. -/
abbrev FetchResult := Except PyErr (List Item)

/-- The `changed = False; for request in group.requests: ...` part of
`_update_group`: run the diff/apply loop over every request's
transformed items in order, threading the group state and the
`changed` flag; a raised fetch/parse failure aborts the whole tick. -/
def group_diff (writeOk : String → Bool) (g : GroupState) (fetches : List FetchResult) :
    Except PyErr (GroupState × Bool) :=
  fetches.foldlM
    (fun (acc : GroupState × Bool) f => do
      let items ← f
      run_items writeOk acc.1 acc.2 items)
    ((g, false) : GroupState × Bool)

/-- Result of one completed `_update_group` call. -/
structure TickResult where
  state : GroupState
  documentCount : Nat
  changed : Bool
  stored : Bool
  deriving Repr

/-- `_update_group(group)` from the source: run the diff/apply loop
over every request's items, then

    first_document = self._document_count[group] == 0
    if changed or (first_document and group.init_document is None):
        await group.db_helper.store()
        self._document_count[group] += 1

`initDocumentNone` models `group.init_document is None` (no previously
persisted document was found at bootstrap); the external
`db_helper.store()` is modelled as always succeeding. -/
def update_group (writeOk : String → Bool) (g : GroupState) (documentCount : Nat)
    (initDocumentNone : Bool) (fetches : List FetchResult) : Except PyErr TickResult := do
  let (g', changed) ← group_diff writeOk g fetches
  let first_document := documentCount == 0
  let stored := changed || (first_document && initDocumentNone)
  .ok { state := g', documentCount := if stored then documentCount + 1 else documentCount,
        changed := changed, stored := stored }

/-- Successive ticks of one group across sweeps.  Each element of the
input list holds the per-request fetch outcomes of one sweep; a tick
on which `_update_group` raises is aborted (the exception is caught in
`updater`), leaving the group state and document count unchanged.
Returns, per tick, `Option.none` for an aborted tick or
`some (changed, stored)` for a completed one, along with the final
state and document count. -/
def run_ticks (writeOk : String → Bool) (g : GroupState) (documentCount : Nat)
    (initDocumentNone : Bool) :
    List (List FetchResult) → List (Option (Bool × Bool)) × GroupState × Nat
  | [] => ([], g, documentCount)
  | t :: rest =>
    match update_group writeOk g documentCount initDocumentNone t with
    | .error _ =>
      let (flags, g', c') := run_ticks writeOk g documentCount initDocumentNone rest
      (Option.none :: flags, g', c')
    | .ok r =>
      let (flags, g', c') := run_ticks writeOk r.state r.documentCount initDocumentNone rest
      (some (r.changed, r.stored) :: flags, g', c')

/-- The `for group in self._dynamic_groups` loop inside the `try` of
`updater`: groups are updated in order until one `_update_group`
raises, which breaks out of the loop (the remaining groups of this
sweep are not processed).  Each element abstracts one group's
`_update_group` outcome.  Returns the number of groups processed and
the escaped exception, if any. -/
def sweep_loop : List (Except PyErr Unit) → Nat × Option PyErr
  | [] => (0, Option.none)
  | .ok _ :: rest =>
    let (n, e) := sweep_loop rest
    (n + 1, e)
  | .error e :: _ => (0, some e)

/-- `update_rate = 60` from the source. -/
def update_rate : ℚ := 60

/-- Result of one iteration of the `while True` body of `updater`. -/
structure IterResult where
  processed : Nat
  caught : Option PyErr
  sleeps : List ℚ
  deriving Repr

/-- One iteration of the `while True` loop in `updater`:

    try:
        for group in self._dynamic_groups:
            await self._update_group(group)
            await async_lib.library.sleep(0.1)
    except Exception:
        self.log.exception('Update failed!')
        await async_lib.library.sleep(10.0)
    await async_lib.library.sleep(self.update_rate)

Any exception is caught and logged, a `10.0`-second backoff sleep
follows it, and the `update_rate` sleep always ends the iteration; the
iteration is a total function — it never re-raises. -/
def updater_iteration (outcomes : List (Except PyErr Unit)) : IterResult :=
  let (n, e) := sweep_loop outcomes
  { processed := n, caught := e,
    sleeps := List.replicate n (mkRat 1 10) ++
      (match e with | some _ => [(10 : ℚ)] | Option.none => []) ++ [update_rate] }

/-- The infinite `while True` loop of `updater`, restricted to any
finite window of sweeps: every scheduled sweep runs through
`updater_iteration`, whatever the earlier outcomes were. -/
def updater_run (sweeps : List (List (Except PyErr Unit))) : List IterResult :=
  sweeps.map updater_iteration

/-! ## Statement helpers -/

/-- The input remaining after the first occurrence of `pat`;
`Option.none` when `pat` does not occur. -/
def findSegRest (pat : List Char) : List Char → Option (List Char)
  | [] => if pat.isEmpty then some [] else Option.none
  | c :: cs =>
    if pat.isPrefixOf (c :: cs) then some ((c :: cs).drop pat.length)
    else findSegRest pat cs

/-- Does the text contain the given segments, in order (successive
non-overlapping occurrences)? -/
def segsInOrder : List Char → List String → Bool
  | _, [] => true
  | cs, seg :: rest =>
    match findSegRest seg.data cs with
    | some cs' => segsInOrder cs' rest
    | Option.none => false

/-! ## Claims -/

/-- **C9, counterexample.**  The claim applies `normalize` to the label
written with the literal guillemet character `»`; `key_to_pv` only
translates the HTML entity `&raquo;`, so the `»` is dropped by
`inflection.parameterize`'s transliteration step, no ` to ` is ever
inserted, and `parameterize`'s lowercasing turns `ETL` into `Etl`.
The output therefore contains neither an `ETL` segment nor a `To`
segment, refuting the claimed `ETL`/`To`/`PerRun` ordered
containment. -/
theorem claim9_counterexample :
    key_to_pv "Avg time spent by getETLStreams() in ETL(0»1) (s/run)" =
      "AvgTimeSpentByGetEtlStreamsInEtl01SPerRun" ∧
    segsInOrder "AvgTimeSpentByGetEtlStreamsInEtl01SPerRun".data ["ETL", "To", "PerRun"] = false ∧
    segsInOrder "AvgTimeSpentByGetEtlStreamsInEtl01SPerRun".data ["To"] = false := by
  refine ⟨by decide, by decide, by decide⟩

/-- **C9 (amended).**  On the claim's input written with the literal
`»`, `normalize` produces `AvgTimeSpentByGetEtlStreamsInEtl01SPerRun`,
which contains the segments `Etl` and `PerRun` in order but no `To`
(the code only rewrites the HTML entity `&raquo;`, and lowercasing
leaves `Etl`, not `ETL`).  With the entity `&raquo;` written in the
input instead, the output is
`AvgTimeSpentByGetEtlStreamsInEtl0To1SPerRun`, which contains `Etl`,
`To` and `PerRun` in that order. -/
theorem claim9_key_normalization_example :
    key_to_pv "Avg time spent by getETLStreams() in ETL(0»1) (s/run)" =
      "AvgTimeSpentByGetEtlStreamsInEtl01SPerRun" ∧
    segsInOrder "AvgTimeSpentByGetEtlStreamsInEtl01SPerRun".data ["Etl", "PerRun"] = true ∧
    key_to_pv "Avg time spent by getETLStreams() in ETL(0&raquo;1) (s/run)" =
      "AvgTimeSpentByGetEtlStreamsInEtl0To1SPerRun" ∧
    segsInOrder "AvgTimeSpentByGetEtlStreamsInEtl0To1SPerRun".data ["Etl", "To", "PerRun"] = true := by
  refine ⟨by decide, by decide, by decide, by decide⟩

/-- The coercion procedure exactly as the specification words it
(retained for comparison with the implementation): on a *failed* parse
or a composite result, strip commas and retry exactly once; if the
retry fails or is again composite, fall back to the **original** raw
text as an opaque string; never raise. -/
def coerce_spec (value : String) : Except PyErr PyVal :=
  let retry :=
    match literal_eval (removeCommas value) with
    | some v2 => if v2.isTuple then Except.ok (.str value) else Except.ok v2
    | Option.none => Except.ok (.str value)
  match literal_eval value with
  | Option.none => retry
  | some v => if v.isTuple then retry else Except.ok v

/-- If a string evaluates to a tuple and comma-stripping it changes
nothing, the recursion in `archiver_literal_eval` makes no progress:
at every fuel budget the result is the same string, the deepest level
returning it when the inner `ast.literal_eval` overflows the stack and
its `RecursionError` is caught. -/
theorem archiver_literal_eval_fuel_fixpoint (v : PyVal) (hv : v.isTuple = true) :
    ∀ (fuel : Nat) (s : String), literal_eval s = some v → removeCommas s = s →
      archiver_literal_eval_fuel fuel s = .ok (.str s) := by
  intro fuel
  induction fuel with
  | zero => intro s _ _; rfl
  | succ n ih =>
    intro s hs hfix
    rw [archiver_literal_eval_fuel, hs]
    simp only [hv, if_true]
    rw [hfix]
    exact ih s hs hfix

/-- **C2 (amended).**  Characterization of `archiver_literal_eval`: it
never raises outward (every input yields a value), but: if the literal
parse *fails*, the original raw text is returned as an opaque string
with **no** retry; only a composite (tuple) result triggers the
comma-stripped retry; if the retry fails, the **comma-stripped** text
(not the original) is returned as the string fallback; and if the
retry again yields a composite — possible exactly for empty-tuple
literals such as `"()"`, on which stripping commas makes no progress —
the recursion bottoms out at the interpreter's stack limit inside the
caught `ast.literal_eval` call and again returns the comma-stripped
text as an opaque string. -/
theorem claim2_archiver_literal_eval_characterization :
    (∀ s : String, archiver_literal_eval s =
      match literal_eval s with
      | Option.none => .ok (.str s)
      | some v =>
        if v.isTuple then
          match literal_eval (removeCommas s) with
          | Option.none => .ok (.str (removeCommas s))
          | some v2 =>
            if v2.isTuple then .ok (.str (removeCommas s)) else .ok v2
        else .ok v) ∧
    (∀ s : String, ∃ w, archiver_literal_eval s = .ok w) := by
  have hchar : ∀ s : String, archiver_literal_eval s =
      match literal_eval s with
      | Option.none => .ok (.str s)
      | some v =>
        if v.isTuple then
          match literal_eval (removeCommas s) with
          | Option.none => .ok (.str (removeCommas s))
          | some v2 =>
            if v2.isTuple then .ok (.str (removeCommas s)) else .ok v2
        else .ok v := by
    intro s
    rw [archiver_literal_eval, archiver_literal_eval_fuel]
    cases h : literal_eval s with
    | none => rfl
    | some v =>
      cases hv : v.isTuple with
      | false => simp [hv]
      | true =>
        simp only [hv, if_true]
        rw [archiver_literal_eval_fuel]
        cases h2 : literal_eval (removeCommas s) with
        | none => rfl
        | some v2 =>
          cases hv2 : v2.isTuple with
          | false => simp [hv2]
          | true =>
            simp only [hv2, if_true]
            rw [removeCommas_idem]
            exact archiver_literal_eval_fuel_fixpoint v2 hv2 _ _ h2 (removeCommas_idem s)
  refine ⟨hchar, ?_⟩
  intro s
  rw [hchar s]
  cases h : literal_eval s with
  | none => exact ⟨.str s, rfl⟩
  | some v =>
    cases hv : v.isTuple with
    | false => exact ⟨v, by simp [hv]⟩
    | true =>
      simp only [hv, if_true]
      cases h2 : literal_eval (removeCommas s) with
      | none => exact ⟨.str (removeCommas s), rfl⟩
      | some v2 =>
        cases hv2 : v2.isTuple with
        | false => exact ⟨v2, by simp [hv2]⟩
        | true => exact ⟨.str (removeCommas s), by simp [hv2]⟩

/-- **C2, counterexample.**  On `",1"` the parse fails and the code
returns the raw text at once, while the claimed procedure would retry
without the comma and produce the integer `1`; and on `"(),()"`
(a tuple whose comma-stripped form `"()()"` fails to parse) the code
falls back to the comma-stripped string `"()()"`, not to the original
raw text `"(),()"` that the claim prescribes. -/
theorem claim2_counterexample :
    archiver_literal_eval ",1" = .ok (.str ",1") ∧
    coerce_spec ",1" = .ok (.int 1) ∧
    archiver_literal_eval ",1" ≠ coerce_spec ",1" ∧
    archiver_literal_eval "(),()" = .ok (.str "()()") ∧
    coerce_spec "(),()" = .ok (.str "(),()") ∧
    archiver_literal_eval "(),()" ≠ coerce_spec "(),()" := by
  have h1 : archiver_literal_eval ",1" = .ok (.str ",1") := rfl
  have h2 : coerce_spec ",1" = .ok (.int 1) := rfl
  have h4 : archiver_literal_eval "(),()" = .ok (.str "()()") := rfl
  have h5 : coerce_spec "(),()" = .ok (.str "(),()") := rfl
  refine ⟨h1, h2, ?_, h4, h5, ?_⟩
  · rw [h1, h2]
    simp
  · rw [h4, h5]
    simp

/-- **C10.**  Building the pvproperty kwargs raises `KeyError` (from
the `{bool: 'bi', float: 'ai', int: 'longin', str: 'stringin'}[type(value)]`
lookup) exactly when the coerced value's runtime type is none of
`bool`/`int`/`float`/`str`; in particular the raw strings `"None"` and
`"[1, 2]"` coerce to `None` and a list and make the transform raise
rather than degrade to a string. -/
theorem claim10_record_lookup_keyerror :
    (∀ (key : String) (value w : PyVal), archiver_literal_eval_any value = .ok w →
      (_value_to_pvproperty_kwargs key value = .error .keyError ↔
        ¬(w.isBool = true ∨ w.isInt = true ∨ w.isFloat = true ∨ w.isStr = true))) ∧
    _value_to_pvproperty_kwargs "k" (.str "None") = .error .keyError ∧
    _value_to_pvproperty_kwargs "k" (.str "[1, 2]") = .error .keyError := by
  refine ⟨?_, rfl, rfl⟩
  intro key value w hco
  simp only [_value_to_pvproperty_kwargs, hco, bind, Except.bind]
  cases w <;>
    simp [record_type, PyVal.isBool, PyVal.isInt, PyVal.isFloat, PyVal.isStr]

/-- **C10, witness.**  `None` (coerced from itself) has no record
type, so the kwargs construction raises `KeyError` on it. -/
theorem claim10_witness :
    archiver_literal_eval_any PyVal.none = .ok PyVal.none ∧
    _value_to_pvproperty_kwargs "k" PyVal.none = .error .keyError := by
  refine ⟨rfl, ?_⟩
  exact (claim10_record_lookup_keyerror.1 "k" PyVal.none PyVal.none rfl).mpr
    (by simp [PyVal.isBool, PyVal.isInt, PyVal.isFloat, PyVal.isStr])

/-- `data[-1]` on a nonempty list is its last element. -/
theorem pySubscript_last (xs : List PyVal) (p : PyVal) :
    pySubscript (.list (xs ++ [p])) (-1) = some p := by
  have h0 : ¬ (((xs ++ [p]).length : Int) + (-1) < 0) := by
    simp only [List.length_append, List.length_cons, List.length_nil]
    push_cast
    omega
  have h1 : ((((xs ++ [p]).length : Int)) + (-1)).toNat = xs.length := by
    simp only [List.length_append, List.length_cons, List.length_nil]
    push_cast
    omega
  simp only [pySubscript]
  rw [if_pos (by norm_num), if_neg h0, h1]
  exact List.get?_concat_length xs p

/-- **C7.**  For process-metrics items the emitted value is the second
component of the last entry of `data` (whenever that entry has at
least two components); an empty (falsy) `data` yields the integer `0`;
a failing subscription (`data[-1]` or `...[1]` raising) yields the
float `0.0`; and the transform emits one field per item, never
raising. -/
theorem claim7_process_metrics_values :
    (∀ (label : String) (xs rest : List PyVal) (t v : PyVal),
      process_metrics_to_pvproperties [⟨label, .list (xs ++ [.list (t :: v :: rest)])⟩] =
        [⟨camelize (firstSpaceToken label), v⟩]) ∧
    (∀ label, process_metrics_to_pvproperties [⟨label, .list []⟩] =
      [⟨camelize (firstSpaceToken label), .int 0⟩]) ∧
    (∀ d, d.truthy = true → pySubscript d (-1) = Option.none → get_value d = .float 0) ∧
    (∀ d last, d.truthy = true → pySubscript d (-1) = some last →
      pySubscript last 1 = Option.none → get_value d = .float 0) ∧
    (∀ items, (process_metrics_to_pvproperties items).length = items.length) ∧
    process_metrics_to_pvproperties
        [⟨"Foo Bar", .list [.list [.int 1, .int 10], .list [.int 2, .int 20]]⟩] =
      [⟨"Foo", .int 20⟩] ∧
    get_value (.list [.int 5]) = .float 0 := by
  refine ⟨?_, ?_, ?_, ?_, ?_, rfl, rfl⟩
  · intro label xs rest t v
    have htr : (PyVal.list (xs ++ [.list (t :: v :: rest)])).truthy = true := by
      simp [PyVal.truthy]
    have hval : get_value (.list (xs ++ [.list (t :: v :: rest)])) = v := by
      simp only [get_value, htr, Bool.not_true, pySubscript_last]
      rfl
    simp [process_metrics_to_pvproperties, to_process_info, hval]
  · intro label
    rfl
  · intro d htr hsub
    simp only [get_value, htr, hsub, Bool.not_true]
    rfl
  · intro d last htr hsub hsub2
    simp only [get_value, htr, hsub, hsub2, Bool.not_true]
    rfl
  · intro items
    simp [process_metrics_to_pvproperties]

/-- **C7, witness.**  The claim's own example:
`{"label": "Foo Bar", "data": [[1, 10], [2, 20]]}` yields one field
named `Foo` whose value is the integer `20`. -/
theorem claim7_witness :
    process_metrics_to_pvproperties
        [⟨"Foo Bar", .list [.list [.int 1, .int 10], .list [.int 2, .int 20]]⟩] =
      [⟨"Foo", .int 20⟩] :=
  (claim7_process_metrics_values.1 "Foo Bar" [.list [.int 1, .int 10]] [] (.int 2)
    (.int 20)).trans rfl

/-- A falsy value of one of the four record-typed runtime types is a
fixed point of re-coercion (`False`, `0`, `0.0` and `''` all coerce to
themselves; `''` because the empty string fails to parse and is
returned as-is). -/
theorem archiver_literal_eval_any_falsy_fixed (v : PyVal) (hf : v.truthy = false)
    (hr : (record_type v).isSome = true) : archiver_literal_eval_any v = .ok v := by
  cases v with
  | str s =>
    have hs : s = "" := by simpa [PyVal.truthy] using hf
    subst hs
    rfl
  | bool b => rfl
  | int n => rfl
  | float q => rfl
  | tuple xs => simp [record_type] at hr
  | list xs => simp [record_type] at hr
  | dict xs => simp [record_type] at hr
  | none => simp [record_type] at hr

/-- Whenever the estimated-bytes special case completes, the item's
name has had its unit suffix rewritten to `(MB)`, whatever happened to
the value. -/
theorem detailed_filter_item_name (item : DetailedItem) (u unitsRaw : String)
    (it' : DetailedItem)
    (hpre : strStartsWith item.name "Estimated bytes transferred in ETL" = true)
    (hsplit : rsplitParen1 item.name = some (u, unitsRaw))
    (h : detailed_filter_item item = .ok it') : it'.name = u ++ "(MB)" := by
  rw [detailed_filter_item, if_pos hpre] at h
  cases hco : archiver_literal_eval_any item.value with
  | error e => simp [hco, hsplit, bind, Except.bind] at h
  | ok v =>
    simp only [hco, hsplit, bind, Except.bind] at h
    repeat' split at h
    all_goals
      try simp only [Except.ok.injEq] at h
    all_goals
      first
        | rw [← h]
        | simp at h

/-- **C8.**  For an estimated-bytes item whose coerced value is falsy,
the unit conversion is skipped — the value passes through exactly as
coerced — while the name's unit suffix is still rewritten to `(MB)`;
when the falsy value is record-typeable the transform then emits one
field whose name is the canonicalized `(MB)` name. -/
theorem claim8_falsy_skips_conversion (item : DetailedItem) (u unitsRaw : String) (v : PyVal)
    (hpre : strStartsWith item.name "Estimated bytes transferred in ETL" = true)
    (hsplit : rsplitParen1 item.name = some (u, unitsRaw))
    (hco : archiver_literal_eval_any item.value = .ok v)
    (hfalsy : v.truthy = false) :
    detailed_filter_item item = .ok ⟨u ++ "(MB)", v⟩ ∧
    (∀ r, record_type v = some r →
      (detailed_metrics_to_pvproperties "" [item]).map (fun fs => fs.map Field.name) =
        .ok [key_to_pv (u ++ "(MB)")]) := by
  have h1 : detailed_filter_item item = .ok ⟨u ++ "(MB)", v⟩ := by
    rw [detailed_filter_item, if_pos hpre]
    simp only [hco, hsplit, hfalsy, bind, Except.bind]
    rfl
  refine ⟨h1, ?_⟩
  intro r hr
  have hfix : archiver_literal_eval_any v = .ok v :=
    archiver_literal_eval_any_falsy_fixed v hfalsy (by rw [hr]; rfl)
  have hkw : _value_to_pvproperty_kwargs (u ++ "(MB)") v =
      .ok { value := v, doc := u ++ "(MB)", record := r,
            report_as_string := v.isStr,
            max_length := if v.isStr then some 2000 else Option.none } := by
    simp only [_value_to_pvproperty_kwargs, hfix, hr, bind, Except.bind]
  simp only [detailed_metrics_to_pvproperties, List.mapM_cons, List.mapM_nil, h1, hkw,
    bind, Except.bind, pure, Except.pure, Except.map, List.map, mkField]

/-- **C8, witness.**  `{"name": "Estimated bytes transferred in
ETL(0»1)(KB)", "value": "0"}`: the coerced `0` is falsy, so it is not
divided by 1024, yet the name still becomes `...(MB)`. -/
theorem claim8_witness :
    detailed_filter_item ⟨"Estimated bytes transferred in ETL(0»1)(KB)", .str "0"⟩ =
      .ok ⟨"Estimated bytes transferred in ETL(0»1)(MB)", .int 0⟩ :=
  (claim8_falsy_skips_conversion ⟨"Estimated bytes transferred in ETL(0»1)(KB)", .str "0"⟩
    "Estimated bytes transferred in ETL(0»1)" "KB)" (.int 0) rfl rfl rfl rfl).1

/-- **C1.**  For an estimated-bytes item with a truthy numeric coerced
value `q`: a `KB` unit divides the value by 1024 (as a float), `MB`
leaves it exactly as coerced, `GB` multiplies by 1024 (as a float);
and whenever the transform emits a field for such an item, the field's
name is the canonicalized form of the name with its unit suffix
replaced by `(MB)`. -/
theorem claim1_unit_conversion (item : DetailedItem) (u unitsRaw : String) (v : PyVal) (q : ℚ)
    (hpre : strStartsWith item.name "Estimated bytes transferred in ETL" = true)
    (hsplit : rsplitParen1 item.name = some (u, unitsRaw))
    (hco : archiver_literal_eval_any item.value = .ok v)
    (hnum : v.toNum? = some q)
    (htru : v.truthy = true) :
    (rstripRParen unitsRaw = "KB" →
      detailed_filter_item item = .ok ⟨u ++ "(MB)", .float (q / 1024)⟩) ∧
    (rstripRParen unitsRaw = "MB" →
      detailed_filter_item item = .ok ⟨u ++ "(MB)", v⟩) ∧
    (rstripRParen unitsRaw = "GB" →
      detailed_filter_item item = .ok ⟨u ++ "(MB)", .float (q * 1024)⟩) ∧
    (∀ fs, detailed_metrics_to_pvproperties "" [item] = .ok fs →
      fs.map Field.name = [key_to_pv (u ++ "(MB)")]) := by
  have hdiv : qDivNat q 1024 = q / 1024 := by
    rw [qDivNat_eq q 1024 (by norm_num)]
    norm_num
  have hmul : qMulNat q 1024 = q * 1024 := by
    rw [qMulNat_eq q 1024]
    norm_num
  refine ⟨?_, ?_, ?_, ?_⟩
  · intro hKB
    rw [detailed_filter_item, if_pos hpre]
    simp only [hco, hsplit, bind, Except.bind]
    rw [if_pos htru, if_pos hKB]
    simp only [pyDivConst, hnum, hdiv]
  · intro hMB
    have hnKB : ¬ rstripRParen unitsRaw = "KB" := by
      rw [hMB]
      decide
    rw [detailed_filter_item, if_pos hpre]
    simp only [hco, hsplit, bind, Except.bind]
    rw [if_pos htru, if_neg hnKB, if_pos hMB]
  · intro hGB
    have hnKB : ¬ rstripRParen unitsRaw = "KB" := by
      rw [hGB]
      decide
    have hnMB : ¬ rstripRParen unitsRaw = "MB" := by
      rw [hGB]
      decide
    rw [detailed_filter_item, if_pos hpre]
    simp only [hco, hsplit, bind, Except.bind]
    rw [if_pos htru, if_neg hnKB, if_neg hnMB, if_pos hGB]
    simp only [pyMulConst, hnum, hmul]
  · intro fs hfs
    simp only [detailed_metrics_to_pvproperties, List.mapM_cons, List.mapM_nil, bind,
      Except.bind, pure, Except.pure] at hfs
    cases hfi : detailed_filter_item item with
    | error e =>
      simp only [hfi] at hfs
      exact absurd hfs (by simp)
    | ok it' =>
      simp only [hfi] at hfs
      cases hkw : _value_to_pvproperty_kwargs it'.name it'.value with
      | error e =>
        simp only [hkw] at hfs
        exact absurd hfs (by simp)
      | ok kw =>
        simp only [hkw, Except.ok.injEq] at hfs
        rw [← hfs]
        have hname := detailed_filter_item_name item u unitsRaw it' hpre hsplit hfi
        simp [mkField, hname]

/-- **C1, witness.**  The claim's `KB` example: value string `"2048"`
with a `(KB)` suffix becomes `2048 / 1024 = 2.0` under the rewritten
`(MB)` name. -/
theorem claim1_witness :
    detailed_filter_item ⟨"Estimated bytes transferred in ETL(0»1)(KB)", .str "2048"⟩ =
      .ok ⟨"Estimated bytes transferred in ETL(0»1)(MB)", .float ((2048 : ℚ) / 1024)⟩ ∧
    ((2048 : ℚ) / 1024) = 2 := by
  constructor
  · exact (claim1_unit_conversion
      ⟨"Estimated bytes transferred in ETL(0»1)(KB)", .str "2048"⟩
      "Estimated bytes transferred in ETL(0»1)" "KB)" (.int 2048) 2048
      rfl rfl rfl rfl rfl).1 rfl
  · norm_num

/-- **C4.**  A fetched item whose canonical name is not in the group's
bootstrapped schema map is skipped: no exception escapes, the group
state (schema and attribute values) is untouched — no attribute is
created — and the remaining items of the batch are processed exactly
as if the unknown item were absent. -/
theorem claim4_unknown_name_skipped (writeOk : String → Bool) (g : GroupState)
    (changed : Bool) (item : Item) (rest : List Item)
    (hunknown : assocLookup g.key_to_attr_map item.name = Option.none) :
    process_item writeOk g changed item = .ok (g, changed) ∧
    run_items writeOk g changed (item :: rest) = run_items writeOk g changed rest := by
  have h1 : process_item writeOk g changed item = .ok (g, changed) := by
    rw [process_item, hunknown]
  exact ⟨h1, by simp only [run_items, h1, bind, Except.bind]⟩

/-- **C4, witness.**  A group whose schema knows only `KnownName`
skips an incoming `NewName` item and carries on. -/
theorem claim4_witness :
    assocLookup (GroupState.mk [("KnownName", "known_attr")]
      [("known_attr", PyVal.int 1)]).key_to_attr_map "NewName" = Option.none ∧
    run_items (fun _ => true) ⟨[("KnownName", "known_attr")], [("known_attr", PyVal.int 1)]⟩
        false [⟨"NewName", .int 5⟩] =
      run_items (fun _ => true) ⟨[("KnownName", "known_attr")], [("known_attr", PyVal.int 1)]⟩
        false [] :=
  ⟨rfl, (claim4_unknown_name_skipped (fun _ => true)
    ⟨[("KnownName", "known_attr")], [("known_attr", PyVal.int 1)]⟩
    false ⟨"NewName", .int 5⟩ [] rfl).2⟩

/-- Did this group's `_update_group` call return normally? -/
def isOkOutcome : Except PyErr Unit → Bool
  | .ok _ => true
  | .error _ => false

/-- The first exception in a sweep's group outcomes, if any. -/
def firstErr : List (Except PyErr Unit) → Option PyErr
  | [] => Option.none
  | .ok _ :: rest => firstErr rest
  | .error e :: _ => some e

/-- The sweep processes exactly the longest error-free prefix of the
groups. -/
theorem sweep_loop_processed (outcomes : List (Except PyErr Unit)) :
    (sweep_loop outcomes).1 = (outcomes.takeWhile isOkOutcome).length := by
  induction outcomes with
  | nil => rfl
  | cons o rest ih =>
    cases o with
    | ok u => simp [sweep_loop, List.takeWhile_cons, isOkOutcome, ih]
    | error e => simp [sweep_loop, List.takeWhile_cons, isOkOutcome]

/-- The exception escaping the `for` loop is the first group failure. -/
theorem sweep_loop_err (outcomes : List (Except PyErr Unit)) :
    (sweep_loop outcomes).2 = firstErr outcomes := by
  induction outcomes with
  | nil => rfl
  | cons o rest ih =>
    cases o with
    | ok u => simp [sweep_loop, firstErr, ih]
    | error e => simp [sweep_loop, firstErr]

/-- **C5, counterexample.**  With two groups where the first group's
fetch raises, the second group is *not* processed in that sweep
(`sweep_loop` reports zero groups processed, not one): an exception
aborts the remainder of the sweep, not just the failing group's
tick. -/
theorem claim5_counterexample :
    (sweep_loop [Except.error PyErr.fetchError, Except.ok ()]).1 = 0 ∧ (0 : Nat) ≠ 1 :=
  ⟨rfl, by decide⟩

/-- **C5 (amended).**  A failure raised while processing one group
aborts the remainder of the current sweep: exactly the error-free
prefix of groups is processed, the first exception is caught at the
top level of the loop body (and logged), a longer backoff sleep (10 s)
is inserted exactly when an exception was caught, the iteration always
ends with the regular `update_rate` sleep, and the loop goes on to run
every subsequent scheduled sweep — it never terminates on error. -/
theorem claim5_sweep_error_isolation :
    (∀ outcomes, (sweep_loop outcomes).1 = (outcomes.takeWhile isOkOutcome).length) ∧
    (∀ outcomes, (updater_iteration outcomes).caught = firstErr outcomes) ∧
    (∀ outcomes,
      ((10 : ℚ) ∈ (updater_iteration outcomes).sleeps) ↔ (firstErr outcomes).isSome = true) ∧
    (∀ outcomes, (updater_iteration outcomes).sleeps.getLast? = some update_rate) ∧
    (∀ sweeps, (updater_run sweeps).length = sweeps.length) := by
  have h10 : ¬ (10 : ℚ) = mkRat 1 10 := by decide
  have h60 : ¬ (10 : ℚ) = update_rate := by decide
  refine ⟨sweep_loop_processed, ?_, ?_, ?_, ?_⟩
  · intro outcomes
    rcases hsl : sweep_loop outcomes with ⟨n, e⟩
    have he := sweep_loop_err outcomes
    rw [hsl] at he
    simpa [updater_iteration, hsl] using he
  · intro outcomes
    rcases hsl : sweep_loop outcomes with ⟨n, e⟩
    have he := sweep_loop_err outcomes
    rw [hsl] at he
    simp only at he
    simp only [updater_iteration, hsl, ← he]
    cases e with
    | none => simp [List.mem_append, List.mem_replicate, h10, h60]
    | some err => simp [List.mem_append]
  · intro outcomes
    rcases hsl : sweep_loop outcomes with ⟨n, e⟩
    simp only [updater_iteration, hsl]
    exact List.getLast?_concat _
  · intro sweeps
    simp [updater_run]

/-- The instance tag of a decoded object (its `instance` value, for
objects that carry a string one). -/
def instTag (d : PyDict) : String :=
  match dictLookup d "instance" with
  | some (.str s) => s
  | _ => ""

/-- Per-object emission inside `instance_metrics_to_pvproperties`:
with a string `instance` discriminator present and every value
coercible to a record-typed kwargs dict, one field is emitted per
`key, value` item — the `instance` item included — named
`<instance>:<key_to_pv(key)>`. -/
theorem instance_dict_names (d : PyDict) (pairs : List (String × PyVal)) (s : String)
    (hs : dictLookup d "instance" = some (.str s))
    (hvals : ∀ kv ∈ pairs, ∃ kw, _value_to_pvproperty_kwargs kv.1 kv.2 = .ok kw) :
    ∃ fs, pairs.mapM (instance_emit d) = Except.ok fs ∧
      fs.map Field.name = pairs.map (fun kv => s ++ ":" ++ key_to_pv kv.1) := by
  induction pairs with
  | nil => exact ⟨[], rfl, rfl⟩
  | cons kv pairs ih =>
    obtain ⟨kw, hkw⟩ := hvals kv (List.mem_cons_self kv pairs)
    obtain ⟨fs, hfs, hnames⟩ := ih (fun kv' h => hvals kv' (List.mem_cons_of_mem kv h))
    have hname : to_instance_pv d kv.1 = .ok (s ++ ":" ++ key_to_pv kv.1) := by
      rw [to_instance_pv, hs]
    have hemit : instance_emit d kv = .ok (mkField (s ++ ":" ++ key_to_pv kv.1) kw) := by
      simp only [instance_emit, hname, hkw, bind, Except.bind, pure, Except.pure]
    refine ⟨mkField (s ++ ":" ++ key_to_pv kv.1) kw :: fs, ?_, ?_⟩
    · rw [List.mapM_cons, hemit, hfs]
      rfl
    · simp [mkField, hnames]

/-- **C6 (amended).**  For every payload of objects each carrying a
string `instance` discriminator (and record-typeable values), the
transform emits one FieldSpec per `key, value` item of each object —
*including* the `instance` discriminator item itself, since the
comprehension has no filter — named `<instance>:<normalize(key)>`. -/
theorem claim6_instance_fields (payload : List PyDict)
    (hinst : ∀ d ∈ payload, ∃ s, dictLookup d "instance" = some (.str s))
    (hvals : ∀ d ∈ payload, ∀ kv ∈ d, ∃ kw, _value_to_pvproperty_kwargs kv.1 kv.2 = .ok kw) :
    (instance_metrics_to_pvproperties payload).map (fun fs => fs.map Field.name) =
      .ok ((payload.map (fun d =>
        d.map (fun kv => instTag d ++ ":" ++ key_to_pv kv.1))).flatten) := by
  induction payload with
  | nil => rfl
  | cons d payload ih =>
    obtain ⟨s, hs⟩ := hinst d (List.mem_cons_self d payload)
    obtain ⟨fs, hfs, hnames⟩ :=
      instance_dict_names d d s hs (hvals d (List.mem_cons_self d payload))
    have ih' := ih (fun d' h => hinst d' (List.mem_cons_of_mem d h))
      (fun d' h => hvals d' (List.mem_cons_of_mem d h))
    have htag : instTag d = s := by
      rw [instTag, hs]
    simp only [instance_metrics_to_pvproperties, List.mapM_cons, bind, Except.bind, pure,
      Except.pure] at ih' ⊢
    rw [hfs]
    cases hrest : payload.mapM (fun d => d.mapM (instance_emit d)) with
    | error e =>
      rw [hrest] at ih'
      simp [Except.map] at ih'
    | ok ls =>
      rw [hrest] at ih'
      simp only [Except.map, Except.ok.injEq] at ih' ⊢
      simp only [List.map_cons, List.flatten_cons, List.map_append, hnames, htag, ih']

/-- **C6, counterexample.**  `[{"instance": "a", "k": "1"}]` emits
*two* fields, one of them (`a:Instance`) for the `instance`
discriminator key itself, contradicting "emits no FieldSpec for the
'instance' discriminator key". -/
theorem claim6_counterexample :
    (instance_metrics_to_pvproperties [[("instance", .str "a"), ("k", .str "1")]]).map
        (fun fs => fs.map Field.name) = .ok ["a:Instance", "a:K"] ∧
    (["a:Instance", "a:K"] : List String) ≠ ["a:K"] :=
  ⟨rfl, by decide⟩

/-- **C6, witness.**  The amended statement applied to
`[{"instance": "a", "k": "1"}]`. -/
theorem claim6_witness :
    (instance_metrics_to_pvproperties [[("instance", .str "a"), ("k", .str "1")]]).map
        (fun fs => fs.map Field.name) = .ok ["a:Instance", "a:K"] := by
  have h := claim6_instance_fields [[("instance", .str "a"), ("k", .str "1")]]
    (by
      rintro d hd
      simp only [List.mem_singleton] at hd
      subst hd
      exact ⟨"a", rfl⟩)
    (by
      rintro d hd kv hkv
      simp only [List.mem_singleton] at hd
      subst hd
      simp only [List.mem_cons, List.not_mem_nil, or_false] at hkv
      rcases hkv with h | h <;> subst h
      · exact ⟨_, rfl⟩
      · exact ⟨_, rfl⟩)
  exact h.trans rfl

/-- A completed `_update_group` call stores exactly when something
changed or the gate `document_count == 0 and init_document is None`
opened, and bumps the document count exactly when it stored. -/
theorem update_group_gate (writeOk : String → Bool) (g : GroupState) (c : Nat)
    (initDN : Bool) (fetches : List FetchResult) (r : TickResult)
    (h : update_group writeOk g c initDN fetches = .ok r) :
    r.stored = (r.changed || ((c == 0) && initDN)) ∧
    r.documentCount = if r.stored then c + 1 else c := by
  rw [update_group] at h
  cases hf : group_diff writeOk g fetches with
  | error e =>
    simp only [hf, bind, Except.bind] at h
    exact absurd h (by simp)
  | ok p =>
    obtain ⟨g', changed⟩ := p
    simp only [hf, bind, Except.bind, Except.ok.injEq] at h
    rw [← h]
    exact ⟨rfl, rfl⟩

/-- Once the gate is closed — no prior document was missing, or a
document has already been counted — every later completed tick stores
exactly when its diff changed something. -/
theorem run_ticks_stored_eq_changed (writeOk : String → Bool) (initDN : Bool) :
    ∀ (ticks : List (List FetchResult)) (g : GroupState) (c : Nat),
      ((c == 0) && initDN) = false →
      ∀ (i : Nat) (ch st : Bool),
        (run_ticks writeOk g c initDN ticks).1.get? i = some (some (ch, st)) →
        st = ch := by
  intro ticks
  induction ticks with
  | nil =>
    intro g c hc i ch st h
    simp [run_ticks] at h
  | cons t rest ih =>
    intro g c hc i ch st h
    cases hu : update_group writeOk g c initDN t with
    | error e =>
      rcases hrt : run_ticks writeOk g c initDN rest with ⟨flags, g', c'⟩
      simp only [run_ticks, hu, hrt] at h
      cases i with
      | zero => simp at h
      | succ k =>
        simp only [List.get?_cons_succ] at h
        refine ih g c hc k ch st ?_
        rw [hrt]
        exact h
    | ok r =>
      rcases hrt : run_ticks writeOk r.state r.documentCount initDN rest with ⟨flags, g', c'⟩
      simp only [run_ticks, hu, hrt] at h
      have hg := update_group_gate writeOk g c initDN t r hu
      cases i with
      | zero =>
        simp only [List.get?_cons_zero, Option.some.injEq, Prod.mk.injEq] at h
        rw [← h.2, ← h.1, hg.1, hc]
        simp
      | succ k =>
        simp only [List.get?_cons_succ] at h
        have hc' : ((r.documentCount == 0) && initDN) = false := by
          rw [hg.2]
          cases initDN with
          | false => simp
          | true =>
            simp only [Bool.and_true] at hc ⊢
            have hcz : c ≠ 0 := by simpa using hc
            split <;> simp [hcz]
        refine ih r.state r.documentCount hc' k ch st ?_
        rw [hrt]
        exact h

/-- From a fresh document count of `0` with no prior persisted
document, a completed tick stores exactly when its diff changed
something or it is the first tick ever to complete. -/
theorem run_ticks_first_doc (writeOk : String → Bool) :
    ∀ (ticks : List (List FetchResult)) (g : GroupState) (i : Nat) (ch st : Bool),
      (run_ticks writeOk g 0 true ticks).1.get? i = some (some (ch, st)) →
      (st = true ↔ (ch = true ∨
        ∀ j, j < i → (run_ticks writeOk g 0 true ticks).1.get? j = some Option.none)) := by
  intro ticks
  induction ticks with
  | nil =>
    intro g i ch st h
    simp [run_ticks] at h
  | cons t rest ih =>
    intro g i ch st h
    cases hu : update_group writeOk g 0 true t with
    | error e =>
      rcases hrt : run_ticks writeOk g 0 true rest with ⟨flags, g', c'⟩
      have hflags : (run_ticks writeOk g 0 true rest).1 = flags := by rw [hrt]
      simp only [run_ticks, hu, hrt] at h ⊢
      cases i with
      | zero => simp at h
      | succ k =>
        simp only [List.get?_cons_succ] at h
        have ihk := ih g k ch st (by rw [hflags]; exact h)
        rw [hflags] at ihk
        have hshift : (∀ j, j < k + 1 →
            (Option.none :: flags).get? j = some Option.none) ↔
            (∀ j, j < k → flags.get? j = some Option.none) := by
          constructor
          · intro hall j hj
            have := hall (j + 1) (by omega)
            simpa using this
          · intro hall j hj
            cases j with
            | zero => rfl
            | succ m =>
              simp only [List.get?_cons_succ]
              exact hall m (by omega)
        rw [ihk, hshift]
    | ok r =>
      rcases hrt : run_ticks writeOk r.state r.documentCount true rest with ⟨flags, g', c'⟩
      simp only [run_ticks, hu, hrt] at h ⊢
      have hg := update_group_gate writeOk g 0 true t r hu
      have hst1 : r.stored = true := by
        rw [hg.1]
        simp
      cases i with
      | zero =>
        simp only [List.get?_cons_zero, Option.some.injEq, Prod.mk.injEq] at h
        rw [← h.2, hst1]
        exact iff_of_true rfl (Or.inr (fun j hj => absurd hj (Nat.not_lt_zero j)))
      | succ k =>
        simp only [List.get?_cons_succ] at h
        have hc1 : r.documentCount = 1 := by
          rw [hg.2, hst1]
          simp
        have hbc : st = ch := by
          refine run_ticks_stored_eq_changed writeOk true rest r.state r.documentCount ?_
            k ch st ?_
          · rw [hc1]
            rfl
          · rw [hrt]
            exact h
        have hfalse : ¬ (∀ j, j < k + 1 →
            (some (r.changed, r.stored) :: flags).get? j = some Option.none) := by
          intro hall
          have h0 := hall 0 (Nat.succ_pos k)
          simp at h0
        rw [hbc]
        constructor
        · exact fun hch => Or.inl hch
        · rintro (hch | hall)
          · exact hch
          · exact absurd hall hfalse

/-- **C3.**  Starting from the bootstrap document count of `0`, a
completed tick persists a snapshot if and only if its diff changed
some attribute value, or no prior persisted document exists for the
group (`init_document is None`) and no earlier tick has completed; and
a completed tick increments the document count exactly when it
persists. -/
theorem claim3_persistence_gating :
    (∀ (writeOk : String → Bool) (g : GroupState) (initDN : Bool)
       (ticks : List (List FetchResult)) (i : Nat) (ch st : Bool),
      (run_ticks writeOk g 0 initDN ticks).1.get? i = some (some (ch, st)) →
      (st = true ↔ (ch = true ∨ (initDN = true ∧
        ∀ j, j < i → (run_ticks writeOk g 0 initDN ticks).1.get? j = some Option.none)))) ∧
    (∀ (writeOk : String → Bool) (g : GroupState) (c : Nat) (initDN : Bool)
       (fetches : List FetchResult) (r : TickResult),
      update_group writeOk g c initDN fetches = .ok r →
      r.documentCount = if r.stored then c + 1 else c) := by
  constructor
  · intro writeOk g initDN ticks i ch st h
    cases initDN with
    | false =>
      have := run_ticks_stored_eq_changed writeOk false ticks g 0 rfl i ch st h
      rw [this]
      simp
    | true =>
      have := run_ticks_first_doc writeOk ticks g i ch st h
      rw [this]
      simp
  · intro writeOk g c initDN fetches r h
    exact (update_group_gate writeOk g c initDN fetches r h).2

/-- **C3, witness.**  A group with no prior persisted document, whose
single one-request first tick fetches an empty item list: nothing
changes, yet the first completed tick stores exactly one snapshot. -/
theorem claim3_witness :
    (run_ticks (fun _ => true) ⟨[], []⟩ 0 true [[Except.ok []]]).1.get? 0 =
      some (some (false, true)) ∧
    (true = true ↔ (false = true ∨ (true = true ∧
      ∀ j, j < 0 →
        (run_ticks (fun _ => true) ⟨[], []⟩ 0 true [[Except.ok []]]).1.get? j =
          some Option.none))) :=
  ⟨rfl, claim3_persistence_gating.1 (fun _ => true) ⟨[], []⟩ true [[Except.ok []]] 0
    false true rfl⟩

end Archstats
